import Mathlib

/-!
Shallow embedding of the worktree state & coordination layer of `wt-agent`
(`src/services/git.ts`, class `GitService`).

Modelling conventions, chosen once and used throughout:
* A JSON metadata document (`metadata.json`) is an optional-field record
  `MetaDoc`; an absent file is `none : Option MetaDoc`.
* JavaScript truthiness on `string | undefined` (`if (x)`) is `truthyStr`:
  `undefined` and `""` are falsy.  Truthiness on a number field (`if (d.port)`)
  is `truthyNat`: `undefined` and `0` are falsy.
* Exceptions (`throw new Error(...)`) are `Except GitError`; each distinct
  error message of the source gets one constructor.
* `fs.existsSync(wtPath)` for the single-worktree operations is the Boolean
  field `wtExists`; `git reset --hard <sha>` is modelled by replacing the
  worktree's current commit `head`.
-/

deriving instance DecidableEq for Except

structure MetaDoc where
  lockedBy : Option String := none
  timestamp : Option String := none
  context : Option String := none
  port : Option Nat := none
  lastCheckpoint : Option String := none
  checkpointBase : Option String := none
deriving Repr, DecidableEq

/-- JS truthiness of a `string | undefined` value: `undefined` and `""` are falsy. -/
def truthyStr : Option String → Bool
  | none => false
  | some s => s ≠ ""

/-- JS truthiness of a `number | undefined` value: `undefined` and `0` are falsy. -/
def truthyNat : Option Nat → Bool
  | none => false
  | some n => n ≠ 0

/-- State of a single worktree: whether its directory exists, the commit its
HEAD points to, and its metadata document (if the file exists). -/
structure WtState where
  wtExists : Bool
  head : String
  metadata : Option MetaDoc
deriving Repr, DecidableEq

inductive GitError where
  | notFound
  | lockConflict (owner : String)
  | noCheckpoints
  | noRestorePoint
  | rangeExhausted
deriving Repr, DecidableEq

/-- `getLockStatus`: reads `metadata.json` and returns its `lockedBy` field
(`undefined` when the file or the field is absent). -/
def getLockStatus (metadata : Option MetaDoc) : Option String :=
  metadata.bind (fun d => d.lockedBy)

/-- `lockWorktree(feature, agentId)`: fails if the worktree is absent or locked
by a different agent; otherwise writes a fresh document holding exactly
`lockedBy` and `timestamp` (`JSON.stringify(lockData)` of a new object). -/
def lockWorktree (st : WtState) (agentId now : String) : Except GitError WtState :=
  if st.wtExists = false then .error .notFound
  else
    let currentLock := getLockStatus st.metadata
    if truthyStr currentLock = true ∧ currentLock ≠ some agentId then
      .error (.lockConflict (currentLock.getD ""))
    else
      .ok { st with metadata := some { lockedBy := some agentId, timestamp := some now } }

/-- `unlockWorktree(feature, agentId, force)`: no-op when not (truthily) locked;
fails when locked by another agent without `force`; otherwise deletes the
metadata file (`fs.unlinkSync(metadataPath)`). -/
def unlockWorktree (st : WtState) (agentId : String) (force : Bool) :
    Except GitError WtState :=
  if st.wtExists = false then .error .notFound
  else
    let currentLock := getLockStatus st.metadata
    if truthyStr currentLock = false then .ok st
    else if currentLock ≠ some agentId ∧ force = false then
      .error (.lockConflict (currentLock.getD ""))
    else
      .ok { st with metadata := none }

/-- `handoff(feature, toAgentId)`: reads the existing document (`{}` when the
file is absent), overwrites `lockedBy` and `timestamp`, writes it back. -/
def handoff (st : WtState) (toAgentId now : String) : Except GitError WtState :=
  if st.wtExists = false then .error .notFound
  else
    let data : MetaDoc := st.metadata.getD ({} : MetaDoc)
    let data2 : MetaDoc := { data with lockedBy := some toAgentId, timestamp := some now }
    Except.ok { st with metadata := some data2 }

/-- `checkpointRestore(feature)`: resets the worktree to `checkpointBase`, then
deletes both checkpoint fields from the (mutable) `data` object and writes it
back.  The source's return statement `{ restoredTo: data.checkpointBase }`
runs AFTER `delete data.checkpointBase`, so it reads the already-deleted
property: the second component below is that returned value. -/
def checkpointRestore (st : WtState) : Except GitError (WtState × Option String) :=
  if st.wtExists = false then .error .notFound
  else
    match st.metadata with
    | none => .error .noCheckpoints
    | some data =>
      if truthyStr data.checkpointBase = false then .error .noRestorePoint
      else
        let newHead := data.checkpointBase.getD ""
        let data' := { data with lastCheckpoint := none, checkpointBase := none }
        .ok ({ st with head := newHead, metadata := some data' }, data'.checkpointBase)

/-! ## Conflict status parser (`GitService.status`)

The source works on JS strings; we model the three string operations it uses
(`trim() !== ''`, `includes(sub)`, `includes(char)` on a 2-character code) over
the string's character list, which is the same sequence of characters. -/

/-- `line.trim() !== ''`: the line has a non-whitespace character. -/
def trimNonEmpty (s : String) : Bool := s.data.any (fun c => !c.isWhitespace)

/-- `s.includes(pat)` for JS strings: `pat` occurs as a contiguous substring. -/
def containsSub (s pat : String) : Bool :=
  (List.range (s.data.length + 1)).any (fun i => pat.data.isPrefixOf (s.data.drop i))

/-- `code.includes(c)` for a single-character needle. -/
def containsChar (s : String) (c : Char) : Bool := s.data.contains c

/-- The line filter of `status` (and `isClean`): keep non-blank lines that do
not mention the internal `metadata.json` file. -/
def isStatusLineKept (line : String) : Bool :=
  trimNonEmpty line && !(containsSub line "metadata.json")

structure StatusResult where
  isClean : Bool
  conflicts : List String
  modified : List String
  added : List String
  deleted : List String
deriving Repr, DecidableEq

/-- One iteration of the `lines.forEach` classifier of `status`:
`code = line.substring(0, 2)`, `file = line.substring(3)`, then the
if/else-if cascade pushing `file` onto one of the four lists. -/
def routeLine (acc : StatusResult) (line : String) : StatusResult :=
  let code := line.take 2
  let file := line.drop 3
  if code = "UU" ∨ code = "AA" ∨ code = "DD" ∨ code = "AU" ∨ code = "UA" ∨
      code = "DU" ∨ code = "UD" then
    { acc with conflicts := acc.conflicts ++ [file] }
  else if containsChar code 'M' = true then
    { acc with modified := acc.modified ++ [file] }
  else if containsChar code 'A' = true ∨ code = "??" then
    { acc with added := acc.added ++ [file] }
  else if containsChar code 'D' = true then
    { acc with deleted := acc.deleted ++ [file] }
  else acc

/-- `status(feature)` after the `git status --porcelain` call: filter the raw
output lines, classify each, and report `isClean` iff no line survived the
filter (`lines.length === 0`). -/
def statusParse (rawLines : List String) : StatusResult :=
  let lines := rawLines.filter isStatusLineKept
  lines.foldl routeLine
    { isClean := lines.isEmpty, conflicts := [], modified := [], added := [], deleted := [] }

/-- Modelled from the spec: the classification rules of §4.6, stated on a
two-character code and a path, in the spec's priority order (conflict set,
then modification marker, then addition marker or untracked, then deletion
marker).  Used only to compare `routeLine` against the spec's words. -/
def classifySpec (code file : String) (acc : StatusResult) : StatusResult :=
  if code ∈ ["UU", "AA", "DD", "AU", "UA", "DU", "UD"] then
    { acc with conflicts := acc.conflicts ++ [file] }
  else if containsChar code 'M' = true then
    { acc with modified := acc.modified ++ [file] }
  else if containsChar code 'A' = true ∨ code = "??" then
    { acc with added := acc.added ++ [file] }
  else if containsChar code 'D' = true then
    { acc with deleted := acc.deleted ++ [file] }
  else acc

/-! ## Port lease allocator (`portRequest` / `portRelease`)

These operations range over every worktree, so the state is the collection of
worktrees: an association of feature name to metadata document (`none` when
the worktree has no `metadata.json`), plus the per-worktree `.env.local`
`PORT=` line, modelled as an association of feature name to port value. -/

structure RepoState where
  worktrees : List (String × Option MetaDoc)
  envPorts : List (String × Nat)
deriving Repr, DecidableEq

/-- `fs.existsSync(wtPath)` for a feature: its worktree is in the collection. -/
def wtDirExists (st : RepoState) (feature : String) : Bool :=
  (st.worktrees.find? (fun e => e.1 == feature)).isSome

/-- Read a feature's metadata document: `none` when the worktree is absent,
`some md` when it exists with document state `md`. -/
def getMeta (st : RepoState) (feature : String) : Option (Option MetaDoc) :=
  (st.worktrees.find? (fun e => e.1 == feature)).map (fun e => e.2)

/-- Write a feature's metadata document (`fs.writeFileSync(metadataPath, ...)`). -/
def updateMeta (st : RepoState) (feature : String) (md : MetaDoc) : RepoState :=
  { st with worktrees :=
      st.worktrees.map (fun e => if e.1 == feature then (e.1, some md) else e) }

/-- The used-port collection loop of `portRequest`: for every worktree with a
metadata file, `if (d.port) usedPorts.add(d.port)`. -/
def collectUsedPorts (st : RepoState) : List Nat :=
  st.worktrees.filterMap (fun e =>
    e.2.bind (fun d => if truthyNat d.port = true then d.port else none))

/-- The scan range of the allocator: `for (let p = 8000; p <= 8050; p++)`. -/
def portScanRange : List Nat := List.range' 8000 51

/-- First available port: the ascending scan with `break`, `-1` (here `none`)
when every port in the range is taken. -/
def firstFreePort (used : List Nat) : Option Nat :=
  portScanRange.find? (fun p => !used.contains p)

/-- Upsert of the `PORT=<value>` line in the worktree's own `.env.local`
(replace the existing line if the regex matches, append otherwise). -/
def envUpsert (l : List (String × Nat)) (feature : String) (p : Nat) :
    List (String × Nat) :=
  if l.any (fun e => e.1 == feature) then
    l.map (fun e => if e.1 == feature then (e.1, p) else e)
  else l ++ [(feature, p)]

/-- Apply the env upsert to the state (the `.env.local` write of
`portRequest`); the metadata documents are untouched. -/
def updateEnv (st : RepoState) (feature : String) (p : Nat) : RepoState :=
  { st with envPorts := envUpsert st.envPorts feature p }

/-- `portRequest(feature)`: fail when the worktree is absent; collect every
worktree's truthy `port` field; take the first free port in [8000, 8050]
(`RangeExhausted` when none); merge it into the requester's metadata document
and upsert the env line; return the assigned port. -/
def portRequest (st : RepoState) (feature : String) :
    Except GitError (RepoState × Nat) :=
  if wtDirExists st feature = false then .error .notFound
  else
    match firstFreePort (collectUsedPorts st) with
    | none => .error .rangeExhausted
    | some p =>
      let data : MetaDoc := ((getMeta st feature).getD none).getD ({} : MetaDoc)
      let data2 : MetaDoc := { data with port := some p }
      Except.ok (updateEnv (updateMeta st feature data2) feature p, p)

/-- `portRelease(feature)`: fail when the worktree is absent; when a metadata
file exists and holds a truthy `port`, delete the field and write the document
back; otherwise change nothing.  The env file is not rewritten. -/
def portRelease (st : RepoState) (feature : String) : Except GitError RepoState :=
  if wtDirExists st feature = false then .error .notFound
  else
    match getMeta st feature with
    | some (some d) =>
      if truthyNat d.port = true then
        Except.ok (updateMeta st feature { d with port := none })
      else Except.ok st
    | _ => Except.ok st

/-- Sequential `portRequest` calls, one per listed feature, threading the
state; `none` as soon as one request fails.  Returns the final state and the
list of assigned ports. -/
def requestSeq : RepoState → List String → Option (RepoState × List Nat)
  | st, [] => some (st, [])
  | st, f :: fs =>
    match portRequest st f with
    | .ok (st2, p) =>
      match requestSeq st2 fs with
      | some (st3, ps) => some (st3, p :: ps)
      | none => none
    | .error _ => none

/-! ## GC orchestrator (`GitService.gc`)

`gc` first lists the worktrees, then for each one — inside a per-worktree
`try`/`catch` — checks whether its branch is merged into the remote or the
local base branch, re-reads the lock status, and if merged, clean and unlocked
runs `git worktree remove` and `git branch -d`, recording the branch.  The
Command Runner outcomes for one worktree are modelled as fields: the two
merged-branch queries (`mergedRemote` / `mergedLocal` for membership of the
branch in their output, `mergedCheckFails` when the query itself throws) and
the two destructive commands (`removeFails` / `branchDeleteFails`).  The
initial `git fetch origin <base>` has its failures ignored by the source and
only influences what the merged-branch query later reports, so it needs no
field of its own. -/

structure GcWorktree where
  branch : String
  isClean : Bool
  lockedBy : Option String
  mergedRemote : Bool
  mergedLocal : Bool
  mergedCheckFails : Bool
  removeFails : Bool
  branchDeleteFails : Bool
deriving Repr, DecidableEq

/-- The body of `gc`'s per-worktree loop: `some branch` exactly when the
branch is pushed onto `removed`; `none` when the worktree is skipped, either
by the eligibility tests or by the `catch` swallowing a command failure. -/
def gcStep (wt : GcWorktree) : Option String :=
  if wt.mergedCheckFails = true then none
  else if (wt.mergedRemote || wt.mergedLocal) && wt.isClean then
    if truthyStr wt.lockedBy = true then none
    else if wt.removeFails = true then none
    else if wt.branchDeleteFails = true then none
    else some wt.branch
  else none

/-- `gc(base)`: process every listed worktree in order and return the branches
successfully removed. -/
def gc (wts : List GcWorktree) : List String := wts.filterMap gcStep

/-- Eligibility as the spec states it: merged AND clean AND unlocked. -/
def gcEligible (wt : GcWorktree) : Bool :=
  (wt.mergedRemote || wt.mergedLocal) && wt.isClean && !(truthyStr wt.lockedBy)

/-- No command failed while processing this worktree. -/
def gcSucceeds (wt : GcWorktree) : Bool :=
  !wt.mergedCheckFails && !wt.removeFails && !wt.branchDeleteFails

/-! ## Concrete states used by the claim theorems and witnesses -/

/-- A worktree whose metadata records a pending checkpoint (claims about
`checkpointRestore`). -/
def c1State : WtState :=
  { wtExists := true, head := "headA",
    metadata := some { checkpointBase := some "baseC", lastCheckpoint := some "cpD" } }

/-- A worktree locked by `agent-A` whose metadata also carries a port and a
context message (claims about `unlockWorktree`). -/
def c2State : WtState :=
  { wtExists := true, head := "h0",
    metadata := some { lockedBy := some "agent-A", timestamp := some "t0",
                       port := some 8003, context := some "ctx" } }

/-- A worktree already holding a lock, a port, a context and a checkpoint
(used to witness claim C3: locking erases everything else). -/
def c3State : WtState :=
  { wtExists := true, head := "h0",
    metadata := some { lockedBy := some "agent-A", timestamp := some "t0",
                       port := some 8010, context := some "note",
                       lastCheckpoint := some "c1", checkpointBase := some "c0" } }

/-- An existing worktree with no metadata document (used for claim C7). -/
def c7EmptySt : WtState := { wtExists := true, head := "h0", metadata := none }

/-- The worktree state right after `lock(f, "agent-A")` on `c7EmptySt`. -/
def c7LockedSt : WtState :=
  { wtExists := true, head := "h0",
    metadata := some { lockedBy := some "agent-A", timestamp := some "t1" } }

/-- A worktree locked by `agent-A` and holding a port (used to witness claim
C8: handoff succeeds although a different agent holds the lock). -/
def c8State : WtState :=
  { wtExists := true, head := "h0",
    metadata := some { lockedBy := some "agent-A", timestamp := some "t0",
                       port := some 8001 } }

/-- A merged, clean, but locked worktree (used to witness claim C6). -/
def c6LockedMerged : GcWorktree :=
  { branch := "feat-x", isClean := true, lockedBy := some "agent-A",
    mergedRemote := true, mergedLocal := true,
    mergedCheckFails := false, removeFails := false, branchDeleteFails := false }

/-- Two worktrees, `f1` holding port 8000 (used to show port reuse after a
release, part of claim C5). -/
def c5ReuseSt : RepoState :=
  { worktrees := [("f1", some { port := some 8000 }), ("f2", none)],
    envPorts := [("f1", 8000)] }

/-- `c5ReuseSt` after `portRelease("f1")`. -/
def c5Released : RepoState :=
  { worktrees := [("f1", some ({} : MetaDoc)), ("f2", none)],
    envPorts := [("f1", 8000)] }

/-- `c5Released` after `portRequest("f2")` reassigned the freed port 8000. -/
def c5Reassigned : RepoState :=
  { worktrees := [("f1", some ({} : MetaDoc)), ("f2", some { port := some 8000 })],
    envPorts := [("f1", 8000), ("f2", 8000)] }

/-- A single free worktree (used to witness claim C5). -/
def c5WitSt : RepoState := { worktrees := [("fw", none)], envPorts := [] }

/-- A worktree already holding port 8000 (used to witness claim C10). -/
def c10St : RepoState :=
  { worktrees := [("fh", some { port := some 8000 })], envPorts := [("fh", 8000)] }

/-! ## Theorems for the lock, handoff and checkpoint claims -/

/-- Claim C1 (code-bug exhibit): on a worktree whose metadata records
`checkpointBase = "baseC"`, `checkpointRestore` does reset the worktree to
`"baseC"` and clears both checkpoint fields, but the value it returns as the
commit restored to is `none` (JS `undefined`) rather than `"baseC"`: the
source deletes `data.checkpointBase` before the return statement reads it. -/
theorem checkpointRestore_returns_undefined :
    checkpointRestore c1State =
      .ok ({ wtExists := true, head := "baseC", metadata := some ({} : MetaDoc) }, none) ∧
    (none : Option String) ≠ some "baseC" :=
  ⟨rfl, by decide⟩

/-- Claim C2 counterexample: unlocking by the lock owner deletes the whole
metadata document, so the `port` field (here `8003`) does not survive,
contradicting the claim that only the lock fields are cleared. -/
theorem unlock_erases_other_fields :
    unlockWorktree c2State "agent-A" false =
      .ok { wtExists := true, head := "h0", metadata := none } ∧
    c2State.metadata.bind (fun d => d.port) = some 8003 ∧
    ((none : Option MetaDoc).bind (fun d => d.port)) = none :=
  ⟨rfl, rfl, rfl⟩

/-- Claim C2 amended: for a worktree locked by `agentId` (a non-empty agent
identifier), `unlock(feature, agentId, false)` deletes the entire metadata
document — the lock fields are cleared, and every other metadata field
(`port`, `context`, `lastCheckpoint`, `checkpointBase`) is erased with them. -/
theorem unlockWorktree_owner_deletes_document (st : WtState) (agentId : String)
    (hex : st.wtExists = true)
    (hlock : getLockStatus st.metadata = some agentId)
    (hne : agentId ≠ "") :
    unlockWorktree st agentId false = .ok { st with metadata := none } := by
  simp [unlockWorktree, hex, hlock, truthyStr, hne]

/-- Witness for the amended claim C2 at a concrete locked worktree. -/
theorem unlockWorktree_owner_deletes_document_witness :
    (c2State.wtExists = true ∧ getLockStatus c2State.metadata = some "agent-A" ∧
      "agent-A" ≠ "") ∧
    unlockWorktree c2State "agent-A" false = .ok { c2State with metadata := none } :=
  ⟨⟨rfl, rfl, by decide⟩,
   unlockWorktree_owner_deletes_document c2State "agent-A" rfl rfl (by decide)⟩

/-- Claim C3: when the worktree exists and is not (truthily) locked by a
different agent, a successful `lock` writes a brand-new metadata document
holding exactly `lockedBy` and `timestamp`: any previous `port`, `context`,
`lastCheckpoint` or `checkpointBase` field is erased. -/
theorem lockWorktree_writes_fresh_document (st : WtState) (agentId now : String)
    (hex : st.wtExists = true)
    (hok : truthyStr (getLockStatus st.metadata) = false ∨
           getLockStatus st.metadata = some agentId) :
    lockWorktree st agentId now =
      .ok { st with metadata := some { lockedBy := some agentId, timestamp := some now, context := none, port := none, lastCheckpoint := none, checkpointBase := none } } := by
  rcases hok with h | h <;> simp [lockWorktree, hex, h]

/-- Witness for claim C3: re-locking by the same owner wipes the port, the
context and the checkpoint fields. -/
theorem lockWorktree_writes_fresh_document_witness :
    (c3State.wtExists = true ∧
      (truthyStr (getLockStatus c3State.metadata) = false ∨
       getLockStatus c3State.metadata = some "agent-A")) ∧
    lockWorktree c3State "agent-A" "t1" =
      .ok { c3State with metadata := some { lockedBy := some "agent-A", timestamp := some "t1", context := none, port := none, lastCheckpoint := none, checkpointBase := none } } :=
  ⟨⟨rfl, by decide⟩,
   lockWorktree_writes_fresh_document c3State "agent-A" "t1" rfl (by decide)⟩

/-- Claim C7 counterexample: with A = "" (the empty agent identifier, falsy in
JS) and B = "agent-B", `lock(f, A)` succeeds, but the subsequent
`lock(f, B)` also succeeds — overwriting A's lock — instead of failing with
`LockConflict`, because the truthiness test treats `lockedBy: ""` as
unlocked. -/
theorem lock_empty_agent_not_exclusive :
    lockWorktree c7EmptySt "" "t1" =
      .ok { c7EmptySt with metadata := some { lockedBy := some "", timestamp := some "t1" } } ∧
    lockWorktree { c7EmptySt with metadata := some { lockedBy := some "", timestamp := some "t1" } } "agent-B" "t2" =
      .ok { c7EmptySt with metadata := some { lockedBy := some "agent-B", timestamp := some "t2" } } :=
  ⟨rfl, rfl⟩

/-- Claim C7 amended (A restricted to non-empty identifiers): `lock` fails
with `NotFound` on an absent worktree; after a successful `lock(f, A)`, a
lock attempt by B ≠ A fails with `LockConflict` naming A and the metadata
still records A as owner, while re-locking by A itself succeeds and merely
refreshes the timestamp. -/
theorem lockWorktree_mutual_exclusion (st st1 : WtState) (A B now now2 : String)
    (hA : A ≠ "") (hAB : A ≠ B) :
    (st.wtExists = false → lockWorktree st A now = .error .notFound) ∧
    (lockWorktree st A now = .ok st1 →
      getLockStatus st1.metadata = some A ∧
      lockWorktree st1 B now2 = .error (.lockConflict A) ∧
      lockWorktree st1 A now2 =
        .ok { st1 with metadata := some { lockedBy := some A, timestamp := some now2 } }) := by
  constructor
  · intro hex
    simp [lockWorktree, hex]
  · intro hok
    cases hex : st.wtExists with
    | false => simp [lockWorktree, hex] at hok
    | true =>
      by_cases hc : truthyStr (getLockStatus st.metadata) = true ∧
          getLockStatus st.metadata ≠ some A
      · simp [lockWorktree, hex, hc] at hok
      · simp only [lockWorktree, hex, Bool.true_eq_false, if_false, if_neg hc,
          Except.ok.injEq] at hok
        subst hok
        refine ⟨rfl, ?_, ?_⟩
        · simp [lockWorktree, getLockStatus, truthyStr, hA, hAB]
        · simp [lockWorktree, getLockStatus, truthyStr, hA]

/-- Witness for the amended claim C7 at concrete agents A = "agent-A",
B = "agent-B". -/
theorem lockWorktree_mutual_exclusion_witness :
    ("agent-A" ≠ "" ∧ "agent-A" ≠ "agent-B") ∧
    (getLockStatus c7LockedSt.metadata = some "agent-A" ∧
     lockWorktree c7LockedSt "agent-B" "t2" = .error (.lockConflict "agent-A") ∧
     lockWorktree c7LockedSt "agent-A" "t2" =
       .ok { c7LockedSt with metadata := some { lockedBy := some "agent-A", timestamp := some "t2" } }) :=
  ⟨⟨by decide, by decide⟩,
   (lockWorktree_mutual_exclusion c7EmptySt c7LockedSt "agent-A" "agent-B" "t1" "t2"
      (by decide) (by decide)).2 (by decide)⟩

/-- Claim C8: `handoff` on an existing worktree always succeeds — whatever the
current owner is — overwriting `lockedBy` with the new agent and refreshing
the timestamp, while merging with (not erasing) the rest of the document. -/
theorem handoff_unconditional (st : WtState) (toAgentId now : String)
    (hex : st.wtExists = true) :
    handoff st toAgentId now =
      .ok { st with metadata := some { (st.metadata.getD ({} : MetaDoc)) with lockedBy := some toAgentId, timestamp := some now } } := by
  simp [handoff, hex]

/-- Witness for claim C8: handoff to `agent-B` over `agent-A`'s lock. -/
theorem handoff_unconditional_witness :
    c8State.wtExists = true ∧
    handoff c8State "agent-B" "t9" =
      .ok { c8State with metadata := some { (c8State.metadata.getD ({} : MetaDoc)) with lockedBy := some "agent-B", timestamp := some "t9" } } :=
  ⟨rfl, handoff_unconditional c8State "agent-B" "t9" rfl⟩

/-! ## Theorems for the status-parser claims -/

/-- The classifier never touches the cleanliness flag. -/
theorem routeLine_isClean (acc : StatusResult) (line : String) :
    (routeLine acc line).isClean = acc.isClean := by
  unfold routeLine
  dsimp only
  repeat' split
  all_goals rfl

/-- Folding the classifier over any lines keeps the initial cleanliness flag. -/
theorem foldl_routeLine_isClean (lines : List String) (acc : StatusResult) :
    (lines.foldl routeLine acc).isClean = acc.isClean := by
  induction lines generalizing acc with
  | nil => rfl
  | cons l ls ih => rw [List.foldl_cons, ih, routeLine_isClean]

/-- Claim C4 counterexample: a rename entry (`"R  renamed.txt"`, code `"R "`)
matches none of the four categories, so every returned list is empty while the
cleanliness flag is false — refuting "true iff all four lists are empty". -/
theorem statusParse_rename_all_lists_empty_not_clean :
    (statusParse ["R  renamed.txt"]).conflicts = [] ∧
    (statusParse ["R  renamed.txt"]).modified = [] ∧
    (statusParse ["R  renamed.txt"]).added = [] ∧
    (statusParse ["R  renamed.txt"]).deleted = [] ∧
    (statusParse ["R  renamed.txt"]).isClean = false := by
  decide

/-- Claim C4 amended: the cleanliness flag is true iff no input line survives
the filter (non-blank, not naming the metadata file).  A true flag still
implies that all four lists are empty; the converse fails for lines whose
code matches no category. -/
theorem statusParse_isClean_iff (rawLines : List String) :
    ((statusParse rawLines).isClean = true ↔ rawLines.filter isStatusLineKept = []) ∧
    ((statusParse rawLines).isClean = true →
      (statusParse rawLines).conflicts = [] ∧ (statusParse rawLines).modified = [] ∧
      (statusParse rawLines).added = [] ∧ (statusParse rawLines).deleted = []) := by
  have hclean : (statusParse rawLines).isClean = (rawLines.filter isStatusLineKept).isEmpty := by
    unfold statusParse
    rw [foldl_routeLine_isClean]
  constructor
  · rw [hclean, List.isEmpty_iff]
  · intro h
    have hnil : rawLines.filter isStatusLineKept = [] := by
      rw [hclean, List.isEmpty_iff] at h
      exact h
    refine ⟨?_, ?_, ?_, ?_⟩ <;> simp [statusParse, hnil]

/-- Witness for the amended claim C4 at concrete inputs: a blank line is
filtered out (clean), and its lists are empty. -/
theorem statusParse_isClean_iff_witness :
    (((statusParse [""]).isClean = true ↔ List.filter isStatusLineKept [""] = []) ∧
      ((statusParse [""]).isClean = true →
        (statusParse [""]).conflicts = [] ∧ (statusParse [""]).modified = [] ∧
        (statusParse [""]).added = [] ∧ (statusParse [""]).deleted = [])) ∧
    (statusParse [""]).isClean = true :=
  ⟨statusParse_isClean_iff [""], by decide⟩

/-- Claim C9: the per-line classifier agrees everywhere with the spec's
priority cascade (conflict set, then `M`, then `A` or `??`, then `D`), and on
the spec's example lines the parser returns exactly the stated buckets. -/
theorem routeLine_matches_spec :
    (∀ acc line, routeLine acc line = classifySpec (line.take 2) (line.drop 3) acc) ∧
    statusParse ["UU file.txt", " M other.txt", "?? new.txt"] =
      { isClean := false, conflicts := ["file.txt"], modified := ["other.txt"],
        added := ["new.txt"], deleted := [] } := by
  constructor
  · intro acc line
    simp only [routeLine, classifySpec, List.mem_cons, List.not_mem_nil, or_false]
  · decide

/-! ## Theorems for the GC claim -/

/-- The per-worktree GC step removes the branch exactly when the worktree is
eligible (merged, clean, unlocked) and no command failed. -/
theorem gcStep_eq (wt : GcWorktree) :
    gcStep wt = if (gcEligible wt && gcSucceeds wt) = true then some wt.branch else none := by
  unfold gcStep gcEligible gcSucceeds
  cases hmc : wt.mergedCheckFails <;>
  cases hcl : wt.isClean <;>
  cases hmr : wt.mergedRemote <;>
  cases hml : wt.mergedLocal <;>
  cases hrf : wt.removeFails <;>
  cases hbd : wt.branchDeleteFails <;>
  cases hlk : truthyStr wt.lockedBy <;>
  simp [hmc, hcl, hmr, hml, hrf, hbd, hlk]

/-- Claim C6: (i) the removed list holds exactly the branches of eligible
worktrees whose processing met no command failure; (ii) each worktree is
handled independently — a failing or ineligible worktree is skipped without
aborting the worktrees before or after it; (iii) when branches are distinct, a
locked or non-clean worktree's branch is never removed, merged or not. -/
theorem gc_removes_exactly_eligible (wts : List GcWorktree) :
    (∀ b, b ∈ gc wts ↔
      ∃ wt ∈ wts, gcEligible wt = true ∧ gcSucceeds wt = true ∧ wt.branch = b) ∧
    (∀ pre wt post, wts = pre ++ wt :: post →
      gc wts = gc pre ++
        (if (gcEligible wt && gcSucceeds wt) = true then [wt.branch] else []) ++ gc post) ∧
    ((wts.map (fun wt => wt.branch)).Nodup →
      ∀ wt ∈ wts, truthyStr wt.lockedBy = true ∨ wt.isClean = false →
        wt.branch ∉ gc wts) := by
  have hmem : ∀ b, b ∈ gc wts ↔
      ∃ wt ∈ wts, gcEligible wt = true ∧ gcSucceeds wt = true ∧ wt.branch = b := by
    intro b
    unfold gc
    rw [List.mem_filterMap]
    constructor
    · rintro ⟨wt, hwt, hstep⟩
      rw [gcStep_eq] at hstep
      by_cases hc : (gcEligible wt && gcSucceeds wt) = true
      · rw [if_pos hc] at hstep
        rcases Bool.and_eq_true_iff.mp hc with ⟨h1, h2⟩
        exact ⟨wt, hwt, h1, h2, by injection hstep⟩
      · rw [if_neg hc] at hstep
        cases hstep
    · rintro ⟨wt, hwt, h1, h2, hb⟩
      refine ⟨wt, hwt, ?_⟩
      rw [gcStep_eq, if_pos (Bool.and_eq_true_iff.mpr ⟨h1, h2⟩), hb]
  refine ⟨hmem, ?_, ?_⟩
  · rintro pre wt post rfl
    unfold gc
    rw [List.filterMap_append, List.filterMap_cons, gcStep_eq]
    by_cases hc : (gcEligible wt && gcSucceeds wt) = true
    · rw [if_pos hc, if_pos hc]
      simp
    · rw [if_neg hc, if_neg hc]
      simp
  · intro hnodup wt hwt hbad hmemgc
    rcases (hmem wt.branch).mp hmemgc with ⟨wt2, hwt2, helig, _, hbr⟩
    have : wt2 = wt := List.inj_on_of_nodup_map hnodup hwt2 hwt hbr
    subst this
    rcases hbad with h | h <;> simp [gcEligible, h] at helig

/-- Witness for claim C6: a merged and clean but locked worktree's branch is
not in the removed list. -/
theorem gc_removes_exactly_eligible_witness :
    c6LockedMerged.branch ∉ gc [c6LockedMerged] :=
  (gc_removes_exactly_eligible [c6LockedMerged]).2.2 (by decide) c6LockedMerged
    (by decide) (Or.inl (by decide))

/-! ## Theorems for the port-lease claims -/

/-- The scan range is exactly the closed interval [8000, 8050]. -/
theorem mem_portScanRange {p : Nat} : p ∈ portScanRange ↔ 8000 ≤ p ∧ p ≤ 8050 := by
  rw [portScanRange, List.mem_range'_1]
  omega

/-- On an ascending range, `find?` returns the least element satisfying the
predicate. -/
theorem find?_range'_min (pred : Nat → Bool) :
    ∀ (n s a : Nat), (List.range' s n).find? pred = some a →
      ∀ q, s ≤ q → q < s + n → pred q = true → a ≤ q := by
  intro n
  induction n with
  | zero =>
    intro s a h q hq1 hq2 _
    omega
  | succ n ih =>
    intro s a h q hq1 hq2 hpred
    rw [List.range'_succ] at h
    cases hps : pred s with
    | true =>
      rw [List.find?_cons_of_pos _ hps] at h
      have ha : s = a := by injection h
      omega
    | false =>
      rw [List.find?_cons_of_neg _ (by simp [hps])] at h
      rcases Nat.eq_or_lt_of_le hq1 with heq | hlt
      · rw [← heq, hps] at hpred
        cases hpred
      · exact ih (s + 1) a h q hlt (by omega) hpred

/-- What a successful port scan guarantees: the port is in range, free, and
the least free port in range. -/
theorem firstFreePort_spec {used : List Nat} {p : Nat}
    (h : firstFreePort used = some p) :
    8000 ≤ p ∧ p ≤ 8050 ∧ p ∉ used ∧
      ∀ q, 8000 ≤ q → q ≤ 8050 → q ∉ used → p ≤ q := by
  have hmem := List.mem_of_find?_eq_some h
  have hpred := List.find?_some h
  rw [mem_portScanRange] at hmem
  refine ⟨hmem.1, hmem.2, by simpa using hpred, ?_⟩
  intro q h1 h2 h3
  exact find?_range'_min _ 51 8000 p h q h1 (by omega) (by simpa)

/-- When every port of the range is used, the scan fails. -/
theorem firstFreePort_eq_none {used : List Nat}
    (h : ∀ q, 8000 ≤ q → q ≤ 8050 → q ∈ used) : firstFreePort used = none := by
  rw [firstFreePort, List.find?_eq_none]
  intro x hx
  rw [mem_portScanRange] at hx
  simpa using h x hx.1 hx.2

/-- Updating the metadata of `f` makes `f`'s document the written one
(list-level form). -/
theorem find?_update_self (l : List (String × Option MetaDoc)) (f : String) (md : MetaDoc)
    (hex : (l.find? (fun e => e.1 == f)).isSome = true) :
    (l.map (fun e => if e.1 == f then (e.1, some md) else e)).find? (fun e => e.1 == f)
      = some (f, some md) := by
  induction l with
  | nil => simp at hex
  | cons e t ih =>
    by_cases he : (e.1 == f) = true
    · have h1 : e.1 = f := eq_of_beq he
      rw [List.map_cons, if_pos he, List.find?_cons_of_pos _ (by simpa using he), h1]
    · rw [List.map_cons, if_neg he, List.find?_cons_of_neg _ (by simpa using he)]
      rw [List.find?_cons_of_neg _ (by simpa using he)] at hex
      exact ih hex

/-- Updating the metadata of `f` leaves every other feature's document
untouched (list-level form). -/
theorem find?_update_other (l : List (String × Option MetaDoc)) (f g : String) (md : MetaDoc)
    (hfg : g ≠ f) :
    (l.map (fun e => if e.1 == f then (e.1, some md) else e)).find? (fun e => e.1 == g)
      = l.find? (fun e => e.1 == g) := by
  induction l with
  | nil => rfl
  | cons e t ih =>
    by_cases he : (e.1 == f) = true
    · have h1 : e.1 = f := eq_of_beq he
      have h2 : (e.1 == g) = false := by
        rw [h1]
        exact beq_eq_false_iff_ne.mpr (fun h => hfg h.symm)
      rw [List.map_cons, if_pos he, List.find?_cons_of_neg _ (by simp [h2]),
          List.find?_cons_of_neg _ (by simp [h2])]
      exact ih
    · rw [List.map_cons, if_neg he]
      cases hg : (e.1 == g) with
      | true =>
        simp only [List.find?, hg]
      | false =>
        simp only [List.find?, hg]
        exact ih

/-- The env write does not change any metadata document. -/
theorem getMeta_updateEnv (s : RepoState) (f : String) (p : Nat) (g : String) :
    getMeta (updateEnv s f p) g = getMeta s g := rfl

/-- `updateMeta` read back at the written feature. -/
theorem getMeta_updateMeta_self {st : RepoState} {f : String} {md : MetaDoc}
    (hex : wtDirExists st f = true) :
    getMeta (updateMeta st f md) f = some (some md) := by
  unfold getMeta updateMeta
  unfold wtDirExists at hex
  rw [find?_update_self st.worktrees f md hex]
  rfl

/-- `updateMeta` read back at any other feature. -/
theorem getMeta_updateMeta_other {st : RepoState} {f g : String} {md : MetaDoc}
    (hfg : g ≠ f) :
    getMeta (updateMeta st f md) g = getMeta st g := by
  unfold getMeta updateMeta
  rw [find?_update_other st.worktrees f g md hfg]

/-- A worktree's truthy port is in the used-port collection. -/
theorem port_mem_collectUsedPorts {st : RepoState} {g : String} {d : MetaDoc} {p : Nat}
    (hm : getMeta st g = some (some d)) (hp : d.port = some p) (hp0 : p ≠ 0) :
    p ∈ collectUsedPorts st := by
  unfold getMeta at hm
  obtain ⟨e, hfind⟩ : ∃ e, st.worktrees.find? (fun e => e.1 == g) = some e := by
    cases hF : st.worktrees.find? (fun e => e.1 == g) with
    | none => rw [hF] at hm; cases hm
    | some e => exact ⟨e, rfl⟩
  rw [hfind] at hm
  have he2 : e.2 = some d := by simpa using hm
  have hmem := List.mem_of_find?_eq_some hfind
  unfold collectUsedPorts
  rw [List.mem_filterMap]
  refine ⟨e, hmem, ?_⟩
  rw [he2]
  simp [hp, truthyNat, hp0]

/-- Inversion of a successful `portRequest`: the worktree existed, the
returned port is the first free one, the requester's document was merged with
`port := p`, and every other worktree's document is unchanged. -/
theorem portRequest_ok_inv {st st2 : RepoState} {f : String} {p : Nat}
    (h : portRequest st f = .ok (st2, p)) :
    wtDirExists st f = true ∧
    firstFreePort (collectUsedPorts st) = some p ∧
    getMeta st2 f =
      some (some { (((getMeta st f).getD none).getD ({} : MetaDoc)) with port := some p }) ∧
    (∀ g, g ≠ f → getMeta st2 g = getMeta st g) := by
  unfold portRequest at h
  cases hex : wtDirExists st f with
  | false => rw [hex] at h; cases h
  | true =>
    rw [hex] at h
    cases hf : firstFreePort (collectUsedPorts st) with
    | none => rw [hf] at h; cases h
    | some q =>
      rw [hf] at h
      injection h with h2
      injection h2 with hst hpq
      subst hpq
      refine ⟨rfl, rfl, ?_, ?_⟩
      · rw [← hst, getMeta_updateEnv]
        exact getMeta_updateMeta_self hex
      · intro g hg
        rw [← hst, getMeta_updateEnv]
        exact getMeta_updateMeta_other hg

/-- Through a run of requests on features other than `g`, the port `p` held
by `g` stays in place and is never assigned to anyone. -/
theorem requestSeq_avoids_held_port :
    ∀ (fs : List String) (st : RepoState) (g : String) (d : MetaDoc) (p : Nat)
      (st2 : RepoState) (ps : List Nat),
      g ∉ fs → getMeta st g = some (some d) → d.port = some p → p ≠ 0 →
      requestSeq st fs = some (st2, ps) →
      (∀ q ∈ ps, q ≠ p) ∧ getMeta st2 g = some (some d) := by
  intro fs
  induction fs with
  | nil =>
    intro st g d p st2 ps _ hm _ _ hseq
    simp only [requestSeq, Option.some.injEq, Prod.mk.injEq] at hseq
    obtain ⟨h1, h2⟩ := hseq
    subst h1
    subst h2
    exact ⟨by simp, hm⟩
  | cons f fs ih =>
    intro st g d p st2 ps hg hm hp hp0 hseq
    simp only [requestSeq] at hseq
    cases hreq : portRequest st f with
    | error e => rw [hreq] at hseq; cases hseq
    | ok pr =>
      obtain ⟨st1, q1⟩ := pr
      rw [hreq] at hseq
      dsimp only at hseq
      cases hrest : requestSeq st1 fs with
      | none => rw [hrest] at hseq; cases hseq
      | some pr2 =>
        obtain ⟨st3, ps2⟩ := pr2
        rw [hrest] at hseq
        simp only [Option.some.injEq, Prod.mk.injEq] at hseq
        obtain ⟨h1, h2⟩ := hseq
        subst h1
        subst h2
        have hinv := portRequest_ok_inv hreq
        have hgne : g ≠ f := by
          intro he
          exact hg (he ▸ List.mem_cons_self f fs)
        have hm1 : getMeta st1 g = some (some d) := by
          rw [hinv.2.2.2 g hgne]
          exact hm
        have htail := ih st1 g d p st3 ps2
          (fun hmem => hg (List.mem_cons_of_mem f hmem)) hm1 hp hp0 hrest
        have hq1 : q1 ≠ p := by
          intro he
          have hfree := (firstFreePort_spec hinv.2.1).2.2.1
          have hpused := port_mem_collectUsedPorts hm hp hp0
          rw [he] at hfree
          exact hfree hpused
        refine ⟨?_, htail.2⟩
        intro q hq
        rcases List.mem_cons.mp hq with rfl | hq2
        · exact hq1
        · exact htail.1 q hq2

/-- Sequential requests over pairwise-distinct features yield pairwise
distinct ports. -/
theorem requestSeq_ports_nodup :
    ∀ (fs : List String) (st st2 : RepoState) (ps : List Nat),
      fs.Nodup → requestSeq st fs = some (st2, ps) → ps.Nodup := by
  intro fs
  induction fs with
  | nil =>
    intro st st2 ps _ hseq
    simp only [requestSeq, Option.some.injEq, Prod.mk.injEq] at hseq
    rw [← hseq.2]
    exact List.nodup_nil
  | cons f fs ih =>
    intro st st2 ps hnd hseq
    simp only [requestSeq] at hseq
    cases hreq : portRequest st f with
    | error e => rw [hreq] at hseq; cases hseq
    | ok pr =>
      obtain ⟨st1, q1⟩ := pr
      rw [hreq] at hseq
      dsimp only at hseq
      cases hrest : requestSeq st1 fs with
      | none => rw [hrest] at hseq; cases hseq
      | some pr2 =>
        obtain ⟨st3, ps2⟩ := pr2
        rw [hrest] at hseq
        simp only [Option.some.injEq, Prod.mk.injEq] at hseq
        obtain ⟨h1, h2⟩ := hseq
        subst h1
        subst h2
        have hinv := portRequest_ok_inv hreq
        have hq1pos : q1 ≠ 0 := by
          have := (firstFreePort_spec hinv.2.1).1
          omega
        have hfnotin : f ∉ fs := (List.nodup_cons.mp hnd).1
        have havoid := requestSeq_avoids_held_port fs st1 f
          { (((getMeta st f).getD none).getD ({} : MetaDoc)) with port := some q1 } q1
          st3 ps2 hfnotin hinv.2.2.1 rfl hq1pos hrest
        refine List.nodup_cons.mpr ⟨?_, ih st1 st3 ps2 (List.nodup_cons.mp hnd).2 hrest⟩
        intro hmem
        exact havoid.1 q1 hmem rfl

/-- Claim C5: on an existing worktree, (1) when some port of [8000, 8050] is
free, the request succeeds with the smallest free port of the range and
persists it in the requester's metadata; (2) when every port of the range is
used, it fails with `RangeExhausted`; (3) any returned port lies in
[8000, 8050]; (4) sequential requests across pairwise-distinct worktrees
yield pairwise-distinct ports; (5) a released port can be reassigned by the
next request. -/
theorem portRequest_allocation (st : RepoState) (f : String)
    (hex : wtDirExists st f = true) :
    (∀ q, 8000 ≤ q → q ≤ 8050 → q ∉ collectUsedPorts st →
      ∃ p st2, portRequest st f = .ok (st2, p) ∧
        8000 ≤ p ∧ p ≤ 8050 ∧ p ∉ collectUsedPorts st ∧ p ≤ q ∧
        getMeta st2 f =
          some (some { (((getMeta st f).getD none).getD ({} : MetaDoc)) with port := some p })) ∧
    ((∀ q, 8000 ≤ q → q ≤ 8050 → q ∈ collectUsedPorts st) →
      portRequest st f = .error .rangeExhausted) ∧
    (∀ p st2, portRequest st f = .ok (st2, p) → 8000 ≤ p ∧ p ≤ 8050) ∧
    (∀ fs st2 ps, fs.Nodup → requestSeq st fs = some (st2, ps) → ps.Nodup) ∧
    (portRelease c5ReuseSt "f1" = .ok c5Released ∧
      portRequest c5Released "f2" = .ok (c5Reassigned, 8000)) := by
  refine ⟨?_, ?_, ?_, ?_, ?_, ?_⟩
  · intro q hq1 hq2 hq3
    cases hf : firstFreePort (collectUsedPorts st) with
    | none =>
      exfalso
      rw [firstFreePort, List.find?_eq_none] at hf
      have hq := hf q (mem_portScanRange.mpr ⟨hq1, hq2⟩)
      simp at hq
      exact hq3 hq
    | some p =>
      have hspec := firstFreePort_spec hf
      refine ⟨p,
        updateEnv (updateMeta st f
          { (((getMeta st f).getD none).getD ({} : MetaDoc)) with port := some p }) f p,
        ?_, hspec.1, hspec.2.1, hspec.2.2.1, hspec.2.2.2 q hq1 hq2 hq3, ?_⟩
      · simp [portRequest, hex, hf]
      · rw [getMeta_updateEnv]
        exact getMeta_updateMeta_self hex
  · intro hall
    have hf := firstFreePort_eq_none hall
    simp [portRequest, hex, hf]
  · intro p st2 h
    have hspec := firstFreePort_spec (portRequest_ok_inv h).2.1
    exact ⟨hspec.1, hspec.2.1⟩
  · intro fs st2 ps hnd hseq
    exact requestSeq_ports_nodup fs st st2 ps hnd hseq
  · rfl
  · rfl

/-- Witness for claim C5: on `c5WitSt` the request succeeds and the returned
port 8000 is in range. -/
theorem portRequest_allocation_witness :
    wtDirExists c5WitSt "fw" = true ∧ (8000 ≤ 8000 ∧ 8000 ≤ 8050) :=
  ⟨by decide,
   (portRequest_allocation c5WitSt "fw" (by decide)).2.2.1 8000
     (updateEnv (updateMeta c5WitSt "fw" { port := some 8000 }) "fw" 8000) (by rfl)⟩

/-- Claim C10: when the requesting worktree already holds a (truthy) port `p`,
`p` is counted as used, so a further request never returns `p`: any successful
request returns a different, previously-free port `q`, overwrites `p` with `q`
in the requester's document, and leaves every other worktree's document
unchanged. -/
theorem portRequest_never_returns_held (st : RepoState) (f : String) (d : MetaDoc)
    (p : Nat) (hmeta : getMeta st f = some (some d)) (hport : d.port = some p)
    (hp0 : p ≠ 0) :
    p ∈ collectUsedPorts st ∧
    ∀ q st2, portRequest st f = .ok (st2, q) →
      q ≠ p ∧ q ∉ collectUsedPorts st ∧
      getMeta st2 f = some (some { d with port := some q }) ∧
      (∀ g, g ≠ f → getMeta st2 g = getMeta st g) := by
  have hpused := port_mem_collectUsedPorts hmeta hport hp0
  refine ⟨hpused, ?_⟩
  intro q st2 h
  have hinv := portRequest_ok_inv h
  have hfree := (firstFreePort_spec hinv.2.1).2.2.1
  refine ⟨?_, hfree, ?_, hinv.2.2.2⟩
  · intro he
    rw [he] at hfree
    exact hfree hpused
  · have h3 := hinv.2.2.1
    rw [hmeta] at h3
    simp only [Option.getD_some] at h3
    exact h3

/-- Witness for claim C10 at a concrete worktree holding port 8000. -/
theorem portRequest_never_returns_held_witness :
    (getMeta c10St "fh" = some (some ({ port := some 8000 } : MetaDoc)) ∧
      ({ port := some 8000 } : MetaDoc).port = some 8000 ∧ (8000 : Nat) ≠ 0) ∧
    (8000 ∈ collectUsedPorts c10St ∧
      ∀ q st2, portRequest c10St "fh" = .ok (st2, q) →
        q ≠ 8000 ∧ q ∉ collectUsedPorts c10St ∧
        getMeta st2 "fh" =
          some (some { ({ port := some 8000 } : MetaDoc) with port := some q }) ∧
        (∀ g, g ≠ "fh" → getMeta st2 g = getMeta c10St g)) :=
  ⟨⟨rfl, rfl, by decide⟩,
   portRequest_never_returns_held c10St "fh" { port := some 8000 } 8000 rfl rfl (by decide)⟩
